import Mathlib

/-!
Verification development for `ceject.c`, a single-file interactive tool that
lists external block devices and unmounts / powers off a selected one by
shelling out to `lsblk`, `findmnt` and `udisksctl`.

The embedding is byte-faithful where the claims need it to be.  The key
low-level fact of the source is that `exec_cmd` captures every command's
output into one `static char buffer[MAX_LINE * 10]`, returning a pointer to
it, and callers tokenize that buffer with `strtok` while invoking `exec_cmd`
again inside their loops.  We therefore model the static buffer explicitly:

* `Buf` is a `List Char`; positions beyond the list's length read as NUL,
  which matches the zero-initialized static array (writes never touch bytes
  past the high-water mark, so those bytes stay zero in the C program too).
* `writeOut` models one `exec_cmd` call's net effect on the buffer:
  `buffer[0] = '\0'` followed by `strncat` of all output lines, i.e. the
  output (truncated to `MAX_LINE * 10 - 1` bytes) is written at offset 0
  with a terminating NUL and the residue beyond it is left in place.
* `strtokNext` models glibc `strtok` with delimiter `"\n"` acting on the
  buffer at a saved index: it skips leading delimiters, returns the token's
  start offset and characters, overwrites the ending delimiter with NUL,
  and yields the new saved index (also yielded when no token is found).

External commands are opaque collaborators: an `Env` maps each
device-string substituted into a command to that command's captured output
text, and each `system`-executed command to its exit status.  The `awk`
program filtering the disk listing is part of the C source (a string
literal), so it is embedded as `awkDiskFilter`.
-/

namespace Ceject

/-- The NUL byte terminating C strings. -/
def nulC : Char := Char.ofNat 0

/-- The newline delimiter used by every `strtok` call in the source. -/
def nlC : Char := Char.ofNat 10

/-- Capacity of `exec_cmd`'s static buffer: `MAX_LINE * 10` with
`MAX_LINE = 1024`. -/
def bufCap : Nat := 10240

/-- The static output buffer of `exec_cmd`.  Positions past the list's end
read as NUL (the static array is zero-initialized and writes are capped at
`bufCap`, so untouched bytes are genuinely zero). -/
abbrev Buf := List Char

/-- Read one byte of the buffer (NUL beyond the high-water mark). -/
def bufGet (b : Buf) (i : Nat) : Char := b.getD i nulC

/-- Net effect of one `exec_cmd` call on the static buffer: the captured
output, truncated to `bufCap - 1` bytes by the `strncat` size arithmetic, is
stored from offset 0 with a terminating NUL; bytes beyond the terminator
keep their previous contents. -/
def writeOut (b : Buf) (out : List Char) : Buf :=
  let t := out.take (bufCap - 1)
  t ++ nulC :: b.drop (t.length + 1)

/-- Overwrite one byte with NUL (`*p = '\0'`, as done by `strtok` and by the
newline-stripping `strchr` idiom). -/
def setNul (b : Buf) (i : Nat) : Buf := b.set i nulC

/-- The C string starting at offset `p`: bytes up to the first NUL. -/
def cstr (b : Buf) (p : Nat) : List Char :=
  (b.drop p).takeWhile (fun c => c ≠ nulC)

/-- One `strtok(·, "\n")` step from saved index `p`, following glibc:
skip leading delimiters; if the scan reaches NUL there is no token and the
saved index parks on that NUL; otherwise the token runs to the next
delimiter or NUL, an ending delimiter is overwritten with NUL, and the
saved index moves past it.  Returns (token start and characters, if any;
updated buffer; updated saved index). -/
def strtokNext (b : Buf) (p : Nat) : Option (Nat × List Char) × Buf × Nat :=
  let p1 := p + ((b.drop p).takeWhile (fun c => c = nlC)).length
  if bufGet b p1 = nulC then (none, b, p1)
  else
    let len := ((b.drop p1).takeWhile (fun c => ¬ (c = nlC ∨ c = nulC))).length
    let q := p1 + len
    let tok := (b.drop p1).take len
    if bufGet b q = nulC then (some (p1, tok), b, q)
    else (some (p1, tok), setNul b q, q + 1)

/-- Outputs and exit statuses of the external commands, keyed by the device
string substituted into each command template (the commands themselves are
opaque collaborators returning text, per the spec's query-adapter
contract). -/
structure Env where
  /-- Output of `lsblk -no PKNAME "$(findmnt -n -o SOURCE /)"`. -/
  rootOut : List Char
  /-- Output of `lsblk -ndo NAME,TYPE` (before the awk filter). -/
  lsblkTable : List Char
  /-- Output of `lsblk -no SIZE,MODEL,VENDOR,TRAN "<dev>" | head -1`. -/
  detail : List Char → List Char
  /-- Output of `lsblk -no MOUNTPOINT "<dev>"`. -/
  mountpt : List Char → List Char
  /-- Output of `lsblk -lno NAME "<dev>" | tail -n +2`. -/
  parts : List Char → List Char
  /-- Exit status of `udisksctl unmount -b "<dev>"`. -/
  unmountRet : List Char → Int
  /-- Exit status of `udisksctl power-off -b "<dev>"`. -/
  powerOffRet : List Char → Int

/-- A `DriveInfo` record (the source's struct; `mount_count` is the length
of `mountpoints`). -/
structure DriveInfo where
  path : List Char := []
  size : List Char := []
  model : List Char := []
  vendor : List Char := []
  transport : List Char := []
  mountpoints : List (List Char) := []
deriving DecidableEq

instance : Inhabited DriveInfo := ⟨{}⟩

/-- Whitespace as recognized by `sscanf`'s `%s` (and by `atoi`): the C
locale's `isspace` set. -/
def isWs (c : Char) : Bool :=
  c = ' ' ∨ c = Char.ofNat 9 ∨ c = Char.ofNat 10 ∨ c = Char.ofNat 11 ∨
  c = Char.ofNat 12 ∨ c = Char.ofNat 13

/-- One `%Ns` conversion of `sscanf`: skip whitespace; fail at end of
input; otherwise read at most `w` non-whitespace characters. -/
def scanStr (w : Nat) (s : List Char) : Option (List Char × List Char) :=
  let s1 := s.dropWhile isWs
  if s1.isEmpty then none
  else
    let t := (s1.takeWhile (fun c => !(isWs c))).take w
    some (t, s1.drop t.length)

/-- `sscanf(result, "%63s %127s %127s %31s", size, model, vendor, tran)`:
each successfully converted token is assigned to the next field in order;
conversion stops at the first failure and the remaining fields keep the
contents the struct already had (the source never clears them). -/
def sscanf4 (input : List Char) (d : DriveInfo) : DriveInfo :=
  match scanStr 63 input with
  | none => d
  | some (t1, r1) =>
    let d1 := { d with size := t1 }
    match scanStr 127 r1 with
    | none => d1
    | some (t2, r2) =>
      let d2 := { d1 with model := t2 }
      match scanStr 127 r2 with
      | none => d2
      | some (t3, r3) =>
        let d3 := { d2 with vendor := t3 }
        match scanStr 31 r3 with
        | none => d3
        | some (t4, _) => { d3 with transport := t4 }

/-- Blank characters separating awk fields under the default `FS`. -/
def isBlank (c : Char) : Bool := c = ' ' ∨ c = Char.ofNat 9

/-- Awk's default field splitting: fields are the maximal blank-free runs
(leading and trailing blanks ignored). -/
def awkFields (line : List Char) : List (List Char) :=
  (List.splitOnP isBlank line).filter (fun f => f ≠ [])

/-- Awk's record splitting: newline-separated records, a trailing newline
producing no empty final record. -/
def awkRecords (s : List Char) : List (List Char) :=
  let ls := List.splitOnP (fun c => c = nlC) s
  if ls.getLast? = some [] then ls.dropLast else ls

/-- The awk program embedded in `get_drives`'s listing command:
`awk -v rd="<root>" '$2=="disk" && $1!=rd { print "/dev/"$1 }'` applied to
the `lsblk -ndo NAME,TYPE` table. -/
def awkDiskFilter (rd : List Char) (table : List Char) : List Char :=
  ((awkRecords table).filterMap (fun line =>
      let fs := awkFields line
      if fs.getD 1 [] = "disk".toList ∧ fs.getD 0 [] ≠ rd then
        some ("/dev/".toList ++ fs.getD 0 [])
      else none)).foldr (fun l acc => l ++ nlC :: acc) []

/-- `get_root_drive`: run the root-resolution command into the static
buffer, overwrite the first newline of the result with NUL, and `strncpy`
at most 63 bytes out. -/
def get_root_drive (env : Env) (b : Buf) : List Char × Buf :=
  let b1 := writeOut b env.rootOut
  let b2 := match (cstr b1 0).findIdx? (fun c => c = nlC) with
            | some k => setNul b1 k
            | none => b1
  ((cstr b2 0).take 63, b2)

/-- The mount-point collection loop of `get_drive_info`:
`while (line != NULL && mount_count < 8)` keep lines beginning with `/`
(each `strncpy`-truncated to 255 bytes), fetching the next token at the end
of the body.  Fuel only bounds the iteration; `bufCap + 2` exceeds the
number of tokens any buffer state can yield. -/
def mountLoop (fuel : Nat) (b : Buf) (s : Nat) (line : Option (Nat × List Char))
    (acc : List (List Char)) : List (List Char) × Buf × Nat :=
  match fuel, line with
  | _, none => (acc, b, s)
  | 0, some _ => (acc, b, s)
  | fuel + 1, some (_, tok) =>
    if acc.length < 8 then
      let acc1 := if tok.headD nulC = '/' then acc ++ [tok.take 255] else acc
      let r := strtokNext b s
      mountLoop fuel r.2.1 r.2.2 r.1 acc1
    else (acc, b, s)

/-- `get_drive_info(drive, info)` where `drive` is a pointer at offset
`ptr` into the static buffer (as it is on every call from `get_drives`) and
`prior` is the struct's previous contents (the caller's array is never
cleared).  Faithful to the source's order of operations: `strcpy` the path
and build the detail command while the buffer still holds the token; run
the detail query (overwriting the buffer); `sscanf` the first line; build
the mount-point command by re-reading the `drive` pointer — which now
points into the detail query's output; run the mount-point query and
tokenize it.  Returns the record, the buffer, and `strtok`'s saved index,
which the caller's own `strtok(NULL, "\n")` will use next. -/
def get_drive_info (env : Env) (b : Buf) (ptr : Nat) (prior : DriveInfo) :
    DriveInfo × Buf × Nat :=
  let drive0 := cstr b ptr
  let b1 := writeOut b (env.detail drive0)
  let parsed := sscanf4 (cstr b1 0) prior
  let mountKey := cstr b1 ptr
  let b2 := writeOut b1 (env.mountpt mountKey)
  let r0 := strtokNext b2 0
  let m := mountLoop (bufCap + 2) r0.2.1 r0.2.2 r0.1 []
  ({ parsed with path := drive0, mountpoints := m.1 }, m.2.1, m.2.2)

/-- The drive collection loop of `get_drives`:
`while (line != NULL && count < max_drives)`, one `get_drive_info` per
token, then `strtok(NULL, "\n")` with the saved index `get_drive_info`'s
own inner `strtok` left behind.  `priors` is consumed head-first: entry
`count` of the caller's `drives` array. -/
def drivesLoop (env : Env) (fuel : Nat) (b : Buf) (line : Option (Nat × List Char))
    (priors : List DriveInfo) : List DriveInfo × Buf :=
  match fuel, line with
  | _, none => ([], b)
  | 0, some _ => ([], b)
  | fuel + 1, some (ptr, _) =>
    let g := get_drive_info env b ptr (priors.headD default)
    let r := strtokNext g.2.1 g.2.2
    let rest := drivesLoop env fuel r.2.1 r.1 priors.tail
    (g.1 :: rest.1, rest.2)

/-- `get_drives` with the listing text already produced (the part of the
function after the listing command ran): write the listing into the static
buffer, take the first token, and run the collection loop. -/
def get_drivesL (env : Env) (b : Buf) (priors : List DriveInfo) (max : Nat)
    (listing : List Char) : List DriveInfo × Buf :=
  let b1 := writeOut b listing
  let r := strtokNext b1 0
  drivesLoop env max r.2.1 r.1 priors

/-- `get_drives(drives, max_drives)`: resolve the root drive, run the
awk-filtered disk listing, and collect one record per token. -/
def get_drives (env : Env) (b : Buf) (priors : List DriveInfo) (max : Nat) :
    List DriveInfo × Buf :=
  let r := get_root_drive env b
  get_drivesL env r.2 priors max (awkDiskFilter r.1 env.lsblkTable)

/-- The friendly-name derivation of `show_drives`: with `strlen`-style
emptiness tests, `snprintf("%s%s%s", vendor?, vendor ? " " : "",
model ? model : "Unknown Drive")` when either field is nonempty, otherwise
`"Unknown Drive"`; the `snprintf` target holds 255 bytes. -/
def friendly_name (vendor model : List Char) : List Char :=
  let v := vendor.takeWhile (fun c => c ≠ nulC)
  let m := model.takeWhile (fun c => c ≠ nulC)
  (if v.isEmpty ∧ m.isEmpty then "Unknown Drive".toList
   else (if v.isEmpty then [] else v) ++ (if v.isEmpty then [] else [' ']) ++
        (if m.isEmpty then "Unknown Drive".toList else m)).take 255

/-- Outcome of one `unmount_drive` call: the partition tokens visited (as
`/dev/`-prefixed paths), the unmount attempts made with their success, the
power-off command's success if it was invoked, and the function's boolean
return value. -/
structure EjectTrace where
  visited : List (List Char)
  attempted : List (List Char × Bool)
  powerOff : Option Bool
  result : Bool
deriving DecidableEq

/-- The partition loop of `unmount_drive`: for each token build
`/dev/<tok>` (a private copy, `snprintf` into a 256-byte array), query its
mount point (overwriting the shared buffer), strip the first newline, and
if the result is nonempty run the unmount command, accumulating the failure
flag; then fetch the next token from the clobbered buffer. -/
def partLoop (env : Env) (fuel : Nat) (b : Buf) (s : Nat)
    (line : Option (Nat × List Char)) (visited : List (List Char))
    (attempted : List (List Char × Bool)) (failed : Bool) :
    List (List Char) × List (List Char × Bool) × Bool × Buf :=
  match fuel, line with
  | _, none => (visited, attempted, failed, b)
  | 0, some _ => (visited, attempted, failed, b)
  | fuel + 1, some (_, tok) =>
    let part_path := ("/dev/".toList ++ tok).take 255
    let b1 := writeOut b (env.mountpt part_path)
    let b2 := match (cstr b1 0).findIdx? (fun c => c = nlC) with
              | some k => setNul b1 k
              | none => b1
    let mp := cstr b2 0
    let att :=
      if mp.isEmpty then (attempted, failed)
      else
        let ok := env.unmountRet part_path == 0
        (attempted ++ [(part_path, ok)], failed || !ok)
    let r := strtokNext b2 s
    partLoop env fuel r.2.1 r.2.2 r.1 (visited ++ [part_path]) att.1 att.2

/-- `unmount_drive(drive_path)`: list the partitions, run the partition
loop, and — only when no attempted unmount failed — invoke the power-off
command; the boolean result is `false` exactly on the failed-unmount early
return, and the power-off status is only printed, never returned.  The
trailing `getchar()` of either branch consumes one byte of stdin. -/
def unmount_drive (env : Env) (b : Buf) (drivePath : List Char)
    (stdin : List Char) : EjectTrace × Buf × List Char :=
  let b1 := writeOut b (env.parts drivePath)
  let r0 := strtokNext b1 0
  let p := partLoop env (bufCap + 2) r0.2.1 r0.2.2 r0.1 [] [] false
  if p.2.2.1 then
    ({ visited := p.1, attempted := p.2.1, powerOff := none, result := false },
     p.2.2.2, stdin.drop 1)
  else
    ({ visited := p.1, attempted := p.2.1,
       powerOff := some (env.powerOffRet drivePath == 0), result := true },
     p.2.2.2, stdin.drop 1)

/-- `tolower` on an ASCII byte. -/
def cToLower (c : Char) : Char :=
  if 'A' ≤ c ∧ c ≤ 'Z' then Char.ofNat (c.toNat + 32) else c

/-- The input normalization of `main`: the C string read by `fgets` (up to
its first NUL), truncated at its first newline by the `strchr` idiom, then
lowercased in place. -/
def normInput (raw : List Char) : List Char :=
  (((raw.takeWhile (fun c => c ≠ nulC)).takeWhile (fun c => c ≠ nlC)).map cToLower)

/-- Leading-digit accumulator of `atoi`. -/
def digitsVal : List Char → Nat → Nat
  | [], acc => acc
  | c :: cs, acc =>
    if '0' ≤ c ∧ c ≤ '9' then digitsVal cs (acc * 10 + (c.toNat - 48)) else acc

/-- `atoi`: skip C whitespace, optional sign, then the maximal digit
prefix; zero when no digits follow.  (Mathematical integers: the inputs at
hand are at most 15 bytes from `fgets`, and the comparison bound is the
drive count.) -/
def atoiC (s : List Char) : Int :=
  let s1 := s.dropWhile isWs
  match s1 with
  | '-' :: r => - (digitsVal r 0 : Int)
  | '+' :: r => (digitsVal r 0 : Int)
  | r => (digitsVal r 0 : Int)

/-- The dispatch of `main`'s interactive loop on one normalized input
line. -/
inductive Action where
  | quit : Action
  | refresh : Action
  | eject : Nat → Action
  | invalid : Action
deriving DecidableEq

/-- `main`'s dispatch: compare the normalized input against `"q"` and
`"r"`, otherwise `atoi` it and eject `drives[choice - 1]` when
`1 <= choice && choice <= drive_count`, else fall into the invalid-input
branch (warning, `sleep(2)`, loop restart). -/
def classify (raw : List Char) (count : Nat) : Action :=
  let s := normInput raw
  if s = "q".toList then .quit
  else if s = "r".toList then .refresh
  else
    let c := atoiC s
    if 1 ≤ c ∧ c ≤ (count : Int) then .eject (c.toNat - 1) else .invalid

/-- `fgets(input, 16, stdin)`: `none` at end of input, otherwise up to 15
bytes, stopping after a newline (which is kept). -/
def takeLine : Nat → List Char → List Char × List Char
  | 0, s => ([], s)
  | _ + 1, [] => ([], [])
  | k + 1, c :: cs =>
    if c = nlC then ([c], cs)
    else
      let r := takeLine k cs
      (c :: r.1, r.2)

/-- Read one input line as `fgets` with a 16-byte buffer does. -/
def fgets15 (stdin : List Char) : Option (List Char × List Char) :=
  match stdin with
  | [] => none
  | _ => some (takeLine 15 stdin)

/-- `main`'s loop: refresh the catalog, exit with status 1 when it is
empty (after the acknowledgment `getchar`), otherwise dispatch one input
line; `q` and end of input break out to `return 0`.  `fuel` bounds the
number of iterations; `none` means the fuel ran out mid-loop. -/
def mainLoop (env : Env) : Nat → Buf → List DriveInfo → List Char → Option Nat
  | 0, _, _, _ => none
  | fuel + 1, b, arr, stdin =>
    let g := get_drives env b arr 32
    if g.1.isEmpty then some 1
    else
      let arr1 := g.1 ++ arr.drop g.1.length
      match fgets15 stdin with
      | none => some 0
      | some (raw, stdin1) =>
        match classify raw g.1.length with
        | .quit => some 0
        | .refresh => mainLoop env fuel g.2 arr1 stdin1
        | .eject i =>
          let u := unmount_drive env g.2 ((g.1.getD i default).path) stdin1
          mainLoop env fuel u.2.1 arr1 u.2.2
        | .invalid => mainLoop env fuel g.2 arr1 stdin1

/-- Nonempty lines of a command's output, as the `strtok`-over-`"\n"`
loops of the source would enumerate them if the buffer were not disturbed
(used to state claims about "the partitions the listing reported"). -/
def linesOf (s : List Char) : List (List Char) :=
  (List.splitOnP (fun c => c = nlC) s).filter (fun l => l ≠ [])

/-- Whitespace-delimited tokens of a line (the spec's notion of the
size/model/vendor/transport tuple's tokens), by fuel-bounded splitting. -/
def wsTokensF : Nat → List Char → List (List Char)
  | 0, _ => []
  | fuel + 1, s =>
    let s1 := s.dropWhile isWs
    if s1.isEmpty then []
    else s1.takeWhile (fun c => !(isWs c)) ::
         wsTokensF fuel (s1.dropWhile (fun c => !(isWs c)))

/-- Whitespace-delimited tokens of a line. -/
def wsTokens (s : List Char) : List (List Char) := wsTokensF (s.length + 1) s

/-- Modelled from the spec's words for claim C2 (to be compared with the
code's `sscanf4`): whitespace-delimited token assignment into the four
fields in order, "missing trailing tokens leave fields empty". -/
def claimC2Assign (input : List Char) (d : DriveInfo) : DriveInfo :=
  { d with size := (wsTokens input).getD 0 [],
           model := (wsTokens input).getD 1 [],
           vendor := (wsTokens input).getD 2 [],
           transport := (wsTokens input).getD 3 [] }

/-- A token as `sscanf`'s `%Ns` accepts it whole: nonempty, free of
whitespace, within the width. -/
abbrev ScanTok (w : Nat) (t : List Char) : Prop :=
  t ≠ [] ∧ (∀ c ∈ t, isWs c = false) ∧ t.length ≤ w

/-- A nonempty run of whitespace characters. -/
abbrev WsRun (s : List Char) : Prop := s ≠ [] ∧ ∀ c ∈ s, isWs c = true

/-- Modelled from the spec's words for claim C5 (to be compared with the
code's `friendly_name`): "vendor+model, or Unknown Drive if both empty",
with the space join and single-field cases fixed by the claim's own
examples. -/
def claimC5Name (v m : List Char) : List Char :=
  if v = [] ∧ m = [] then "Unknown Drive".toList
  else v ++ (if v = [] ∨ m = [] then [] else [' ']) ++ m

/-- The claim C6 notion of "a number between 1 and the drive count": a
nonempty all-digit numeral whose value is in range. -/
abbrev PlainNumeralInRange (s : List Char) (count : Nat) : Prop :=
  s ≠ [] ∧ (∀ c ∈ s, '0' ≤ c ∧ c ≤ '9') ∧
  1 ≤ digitsVal s 0 ∧ digitsVal s 0 ≤ count

/-- Claim C6 as stated: any input whose normalization is neither `"q"` nor
`"r"` nor an in-range numeral lands in the invalid branch. -/
def ClaimC6 : Prop :=
  ∀ (raw : List Char) (count : Nat),
    normInput raw ≠ "q".toList → normInput raw ≠ "r".toList →
    ¬ PlainNumeralInRange (normInput raw) count →
    classify raw count = Action.invalid

/-- The `unmount_drive` half of claim C9 as stated: whenever the partition
listing reports at least two partitions, the iteration does not simply
continue over that listing (its visited sequence differs from the listing's
lines) because later iterations read the most recent query's output
instead.  (Falsifying this conjunct falsifies the claim.) -/
def ClaimC9 : Prop :=
  ∀ (env : Env) (b : Buf) (p stdin : List Char),
    2 ≤ (linesOf (env.parts p)).length →
    (unmount_drive env b p stdin).1.visited ≠
      (linesOf (env.parts p)).map (fun l => ("/dev/".toList ++ l).take 255)

/-- Buffer states that agree up to (and including) some NUL position at or
beyond `s`.  Every read the program performs from offset `s` onward is
stopped by that NUL, so related buffers are indistinguishable to it; this
is the invariant behind the buffer-independence results. -/
def Good (b b' : Buf) (s : Nat) : Prop :=
  ∃ k, s ≤ k ∧ bufGet b k = nulC ∧ ∀ i, i ≤ k → bufGet b i = bufGet b' i

/-- Environment of the power-off safety-gate violation: one external disk
`/dev/sdb` with two partitions, both mounted; `sdb1`'s mount point is long
enough that its query output overwrites the partition listing in the shared
buffer, so the iteration never reaches `sdb2`. -/
def envPowerOffBug : Env where
  rootOut := "sda\n".toList
  lsblkTable := "sdb disk\n".toList
  detail := fun _ => []
  mountpt := fun s =>
    if s = "/dev/sdb1".toList then "/media/usb\n".toList
    else if s = "/dev/sdb2".toList then "/x\n".toList
    else []
  parts := fun s => if s = "/dev/sdb".toList then "sdb1\nsdb2\n".toList else []
  unmountRet := fun _ => 0
  powerOffRet := fun _ => 0

/-- Environment with two partitions and empty mount-point outputs: the
overwrites are too short to clobber the listing's residue, so the
iteration does continue over the original listing. -/
def envShortOutputs : Env where
  rootOut := "sda\n".toList
  lsblkTable := "sdb disk\n".toList
  detail := fun _ => []
  mountpt := fun _ => []
  parts := fun s => if s = "/dev/sdb".toList then "sdb1\nsdb2\n".toList else []
  unmountRet := fun _ => 0
  powerOffRet := fun _ => 0

/-- Environment under which the catalog comes to contain the resolved root
device's path: the first device's mount-point query (keyed by the clobbered
`drive` pointer, which now reads the detail output) reports more than eight
mount-point lines, so the inner tokenizer stops mid-buffer and the outer
loop picks up a later line — `/dev/sda` — as the next device token. -/
def envRootLeak : Env where
  rootOut := "sda\n".toList
  lsblkTable := "sdb disk\n".toList
  detail := fun s => if s = "/dev/sdb".toList then "1T Foo\n".toList else []
  mountpt := fun s =>
    if s = "1T Foo\n".toList then
      "/m1\n/m2\n/m3\n/m4\n/m5\n/m6\n/m7\n/m8\nx\n/dev/sda\n".toList
    else []
  parts := fun _ => []
  unmountRet := fun _ => 0
  powerOffRet := fun _ => 0

/-- A benign environment: root `sda`, two external disks listed, the first
with a well-formed detail tuple. -/
def envTwoDisks : Env where
  rootOut := "sda\n".toList
  lsblkTable := "sdb disk\nsdc disk\n".toList
  detail := fun s =>
    if s = "/dev/sdb".toList then " 3.6T Elements Seagate usb\n".toList else []
  mountpt := fun _ => []
  parts := fun _ => []
  unmountRet := fun _ => 0
  powerOffRet := fun _ => 0

/-- Environment whose only listed disk is the root device, so the catalog
is empty. -/
def envNoDrives : Env where
  rootOut := "sda\n".toList
  lsblkTable := "sda disk\n".toList
  detail := fun _ => []
  mountpt := fun _ => []
  parts := fun _ => []
  unmountRet := fun _ => 0
  powerOffRet := fun _ => 0

/-- C1: the power-off safety gate is broken by the shared-buffer `strtok`
iteration.  Under `envPowerOffBug` the partition listing reports `sdb1` and
`sdb2`, both mounted; the attempt unmounts only `sdb1` (the second visited
token is the garbage `a/usb` read from the overwritten buffer, `sdb2` is
never reached), yet the power-off command is invoked and succeeds — so
power-off runs although a mounted partition of the device was never
unmounted, contradicting the claimed if-and-only-if. -/
theorem c1_power_off_despite_mounted_partition :
    (unmount_drive envPowerOffBug [] ("/dev/sdb".toList) []).1.powerOff = some true ∧
    (unmount_drive envPowerOffBug [] ("/dev/sdb".toList) []).1.result = true ∧
    linesOf (envPowerOffBug.parts ("/dev/sdb".toList)) =
      ["sdb1".toList, "sdb2".toList] ∧
    envPowerOffBug.mountpt ("/dev/sdb2".toList) ≠ [] ∧
    (unmount_drive envPowerOffBug [] ("/dev/sdb".toList) []).1.attempted.map
      (fun a => a.1) = ["/dev/sdb1".toList] ∧
    (unmount_drive envPowerOffBug [] ("/dev/sdb".toList) []).1.visited =
      ["/dev/sdb1".toList, "/dev/a/usb".toList] := by decide

/-- C3: the root-exclusion invariant fails.  Under `envRootLeak` the
resolved root device is `sda`, yet the catalog's second record carries
`devicePath = "/dev/sda"`: the record was built from a mount-point line
that the outer tokenizer picked up from the shared buffer, bypassing the
awk filter applied to the device listing. -/
theorem c3_root_path_in_catalog :
    (get_root_drive envRootLeak []).1 = "sda".toList ∧
    (get_drives envRootLeak [] [] 32).1.map (fun d => d.path) =
      ["/dev/sdb".toList, "/dev/sda".toList] := by decide

/-- C9 counterexample: with two partitions whose mount-point queries return
nothing, the overwrites are too short to clobber the listing's residue and
the iteration does continue over the original partition listing, visiting
`/dev/sdb1` then `/dev/sdb2` — so the claim's "for any listing with more
than one partition" is too strong. -/
theorem c9_counterexample : ¬ ClaimC9 := fun h =>
  absurd (h envShortOutputs [] ("/dev/sdb".toList) [] (by decide)) (by decide)

/-- C5 counterexample: the displayed name is not "vendor+model" when the
vendor is nonempty and the model empty — the code renders
`"V Unknown Drive"`, not `"V"`. -/
theorem c5_counterexample :
    ¬ (∀ v m : List Char, friendly_name v m = claimC5Name v m) := fun h =>
  absurd (h ("V".toList) []) (by decide)

/-- C6 counterexample: the input `"1x"` is malformed (not a numeral), so
the claim puts it in the invalid branch; but the code's `atoi` parses its
leading digits and ejects drive 1. -/
theorem c6_counterexample : ¬ ClaimC6 := fun h =>
  absurd (h ("1x".toList) 1 (by decide) (by decide) (by decide)) (by decide)

/-- C2 counterexample: when trailing tokens are missing the fields are not
left empty — they keep whatever the struct held before.  With a stale
`model` of `"M"` and the one-token input `"4G"`, the parsed record's model
is still `"M"`, not the empty string the claim requires. -/
theorem c2_counterexample :
    ¬ (∀ (d : DriveInfo) (input : List Char),
        sscanf4 input d = claimC2Assign input d) := fun h =>
  absurd (h { model := "M".toList } ("4G".toList)) (by decide)

lemma mountLoop_length_le (fuel : Nat) :
    ∀ (b : Buf) (s : Nat) (line : Option (Nat × List Char))
      (acc : List (List Char)), acc.length ≤ 8 →
      (mountLoop fuel b s line acc).1.length ≤ 8 := by
  induction fuel with
  | zero =>
    intro b s line acc h
    cases line <;> simpa [mountLoop]
  | succ n ih =>
    intro b s line acc h
    cases line with
    | none => simpa [mountLoop]
    | some pt =>
      simp only [mountLoop]
      split
      · apply ih
        split
        · simp only [List.length_append, List.length_cons, List.length_nil]
          omega
        · exact h
      · exact h

lemma get_drive_info_mountpoints_le (env : Env) (b : Buf) (ptr : Nat)
    (prior : DriveInfo) :
    (get_drive_info env b ptr prior).1.mountpoints.length ≤ 8 := by
  simp only [get_drive_info]
  exact mountLoop_length_le _ _ _ _ _ (by simp)

lemma drivesLoop_length_le (env : Env) (fuel : Nat) :
    ∀ (b : Buf) (line : Option (Nat × List Char)) (priors : List DriveInfo),
      (drivesLoop env fuel b line priors).1.length ≤ fuel := by
  induction fuel with
  | zero => intro b line priors; cases line <;> simp [drivesLoop]
  | succ n ih =>
    intro b line priors
    cases line with
    | none => simp [drivesLoop]
    | some pt =>
      simp only [drivesLoop, List.length_cons]
      exact Nat.succ_le_succ (ih _ _ _)

lemma drivesLoop_mountpoints_le (env : Env) (fuel : Nat) :
    ∀ (b : Buf) (line : Option (Nat × List Char)) (priors : List DriveInfo)
      (d : DriveInfo), d ∈ (drivesLoop env fuel b line priors).1 →
      d.mountpoints.length ≤ 8 := by
  induction fuel with
  | zero => intro b line priors d hd; cases line <;> simp [drivesLoop] at hd
  | succ n ih =>
    intro b line priors d hd
    cases line with
    | none => simp [drivesLoop] at hd
    | some pt =>
      simp only [drivesLoop, List.mem_cons] at hd
      rcases hd with h | h
      · subst h; exact get_drive_info_mountpoints_le _ _ _ _
      · exact ih _ _ _ _ h

/-- C4: the catalog built by `get_drives` never holds more than the 32
records `main` passes as capacity — the collection loop's `count <
max_drives` guard — and every record's mount-point list is capped at 8 by
the inner loop's `mount_count < 8` guard, whatever text the external
queries report. -/
theorem c4_capacity (env : Env) (b : Buf) (priors : List DriveInfo) :
    (get_drives env b priors 32).1.length ≤ 32 ∧
    ∀ d ∈ (get_drives env b priors 32).1, d.mountpoints.length ≤ 8 := by
  constructor
  · simp only [get_drives, get_drivesL]
    exact drivesLoop_length_le _ _ _ _ _
  · intro d hd
    simp only [get_drives, get_drivesL] at hd
    exact drivesLoop_mountpoints_le _ _ _ _ _ _ hd

lemma partLoop_failed_inv (env : Env) (fuel : Nat) :
    ∀ (b : Buf) (s : Nat) (line : Option (Nat × List Char))
      (visited : List (List Char)) (att : List (List Char × Bool))
      (failed : Bool), failed = !(att.all (fun a => a.2)) →
      (partLoop env fuel b s line visited att failed).2.2.1 =
        !((partLoop env fuel b s line visited att failed).2.1.all
            (fun a => a.2)) := by
  induction fuel with
  | zero => intro b s line v att failed h; cases line <;> simpa [partLoop]
  | succ n ih =>
    intro b s line v att failed h
    cases line with
    | none => simpa [partLoop]
    | some pt =>
      simp only [partLoop]
      apply ih
      split
      · exact h
      · simp [List.all_append, h, Bool.not_and]

lemma partLoop_powerOff_irrel (env : Env) (f : List Char → Int) (fuel : Nat) :
    ∀ (b : Buf) (s : Nat) (line : Option (Nat × List Char))
      (visited : List (List Char)) (att : List (List Char × Bool))
      (failed : Bool),
      partLoop { env with powerOffRet := f } fuel b s line visited att failed =
        partLoop env fuel b s line visited att failed := by
  induction fuel with
  | zero => intro b s line v att failed; cases line <;> simp [partLoop]
  | succ n ih =>
    intro b s line v att failed
    cases line with
    | none => simp [partLoop]
    | some pt => simp only [partLoop]; exact ih _ _ _ _ _ _

/-- C10: `unmount_drive`'s boolean result is exactly "all attempted
unmounts succeeded" — the power-off command's exit status is printed but
never folded into the return value, as replacing the power-off oracle
outright leaves the result unchanged. -/
theorem c10_result_ignores_power_off (env : Env) (b : Buf)
    (p stdin : List Char) (f : List Char → Int) :
    ((unmount_drive env b p stdin).1.result =
      (unmount_drive env b p stdin).1.attempted.all (fun a => a.2)) ∧
    (unmount_drive { env with powerOffRet := f } b p stdin).1.result =
      (unmount_drive env b p stdin).1.result := by
  constructor
  · simp only [unmount_drive]
    have h := partLoop_failed_inv env (bufCap + 2)
      (strtokNext (writeOut b (env.parts p)) 0).2.1
      (strtokNext (writeOut b (env.parts p)) 0).2.2
      (strtokNext (writeOut b (env.parts p)) 0).1 [] [] false (by simp)
    split
    · rename_i hf
      rw [hf] at h
      simpa using h.symm
    · rename_i hf
      rw [Bool.not_eq_true] at hf
      rw [hf] at h
      simpa using h.symm
  · simp only [unmount_drive, partLoop_powerOff_irrel]
    split <;> rfl

/-- C6 amended: the invalid branch is taken exactly when the lowercased,
newline-stripped input is neither `"q"` nor `"r"` and its `atoi` value —
the leading digit prefix after optional whitespace and sign, not a
well-formedness check — lies outside `1..count`; inputs such as `"1x"`
whose digit prefix is in range are dispatched as selections instead. -/
theorem c6_invalid_iff (raw : List Char) (count : Nat) :
    classify raw count = Action.invalid ↔
      (normInput raw ≠ "q".toList ∧ normInput raw ≠ "r".toList ∧
       ¬ (1 ≤ atoiC (normInput raw) ∧
          atoiC (normInput raw) ≤ (count : Int))) := by
  simp only [classify]
  split_ifs with h1 h2 h3 <;> simp_all

lemma takeWhile_ne_nul_of_not_mem (v : List Char) (h : nulC ∉ v) :
    v.takeWhile (fun c => c ≠ nulC) = v := by
  apply List.takeWhile_eq_self_iff.mpr
  intro c hc
  simp only [ne_eq, decide_eq_true_eq]
  exact fun he => h (he ▸ hc)

/-- C5 amended: the friendly name is `"Unknown Drive"` when vendor and
model are both empty, the model alone when only the vendor is empty,
`vendor ++ " " ++ model` when both are nonempty — but a nonempty vendor
with an empty model renders as `vendor ++ " Unknown Drive"`, not as the
vendor alone; the claim's three examples all hold. -/
theorem c5_friendly_name :
    friendly_name [] [] = "Unknown Drive".toList ∧
    friendly_name ("Seagate".toList) ("Desktop".toList) =
      "Seagate Desktop".toList ∧
    friendly_name [] ("X".toList) = "X".toList ∧
    (∀ v m : List Char, v ≠ [] → m ≠ [] → nulC ∉ v → nulC ∉ m →
      v.length + 1 + m.length ≤ 255 → friendly_name v m = v ++ ' ' :: m) ∧
    (∀ m : List Char, m ≠ [] → nulC ∉ m → m.length ≤ 255 →
      friendly_name [] m = m) ∧
    (∀ v : List Char, v ≠ [] → nulC ∉ v → v.length + 14 ≤ 255 →
      friendly_name v [] = v ++ ' ' :: "Unknown Drive".toList) := by
  refine ⟨by decide, by decide, by decide, ?_, ?_, ?_⟩
  · intro v m hv hm hnv hnm hlen
    simp only [friendly_name, takeWhile_ne_nul_of_not_mem v hnv,
      takeWhile_ne_nul_of_not_mem m hnm, List.isEmpty_iff]
    rw [if_neg (by tauto), if_neg hv, if_neg hv, if_neg hm]
    rw [List.take_of_length_le (by simp; omega)]
    simp
  · intro m hm hnm hlen
    simp only [friendly_name, takeWhile_ne_nul_of_not_mem m hnm,
      List.isEmpty_iff]
    simp only [List.takeWhile_nil, List.isEmpty_nil]
    rw [if_neg (by tauto)]
    simp only [if_true, if_neg hm, List.nil_append]
    exact List.take_of_length_le hlen
  · intro v hv hnv hlen
    simp only [friendly_name, takeWhile_ne_nul_of_not_mem v hnv,
      List.isEmpty_iff]
    simp only [List.takeWhile_nil, List.isEmpty_nil]
    rw [if_neg (by tauto), if_neg hv, if_neg hv]
    simp only [if_true]
    rw [List.take_of_length_le (by simp; omega)]
    simp

/-- Witness for `c5_friendly_name`: both fields nonempty. -/
theorem c5_friendly_name_witness :
    ("W".toList ≠ ([] : List Char)) ∧
    friendly_name ("W".toList) ("M2".toList) =
      "W".toList ++ ' ' :: "M2".toList :=
  ⟨by decide, c5_friendly_name.2.2.2.1 ("W".toList) ("M2".toList)
    (by decide) (by decide) (by decide) (by decide) (by decide)⟩

/-- C7: one pass of `main`'s loop exits with status 1 when the freshly
built catalog is empty (the zero-drives acknowledgment path), and with
status 0 when drives exist and the next input line is `"Q"` or `"q"` —
lowercasing makes both hit the quit branch, which breaks out to
`return 0`. -/
theorem c7_exit_codes :
    (∀ (env : Env) (b : Buf) (arr : List DriveInfo) (stdin : List Char)
       (fuel : Nat), (get_drives env b arr 32).1 = [] →
       mainLoop env (fuel + 1) b arr stdin = some 1) ∧
    (∀ (env : Env) (b : Buf) (arr : List DriveInfo) (rest : List Char)
       (fuel : Nat) (raw : List Char),
       (get_drives env b arr 32).1 ≠ [] →
       (raw = "Q\n".toList ∨ raw = "q\n".toList) →
       mainLoop env (fuel + 1) b arr (raw ++ rest) = some 0) := by
  constructor
  · intro env b arr stdin fuel h
    simp [mainLoop, h]
  · intro env b arr rest fuel raw hne hraw
    obtain ⟨d, ds, hg⟩ : ∃ d ds, (get_drives env b arr 32).1 = d :: ds := by
      cases hcat : (get_drives env b arr 32).1 with
      | nil => exact absurd hcat hne
      | cons d ds => exact ⟨d, ds, rfl⟩
    rcases hraw with h | h <;> subst h <;> simp only [mainLoop, hg] <;> rfl

/-- Witness for `c7_exit_codes`: a root-only listing exits 1; a listing
with drives and input `"Q"` exits 0. -/
theorem c7_exit_codes_witness :
    mainLoop envNoDrives 1 [] [] [] = some 1 ∧
    mainLoop envTwoDisks 1 [] [] ("Q\n".toList ++ []) = some 0 :=
  ⟨c7_exit_codes.1 envNoDrives [] [] [] 0 (by decide),
   c7_exit_codes.2 envTwoDisks [] [] [] 0 ("Q\n".toList) (by decide)
     (Or.inl rfl)⟩

lemma dropWhile_ws_append (s rest : List Char)
    (hs : ∀ c ∈ s, isWs c = true) :
    (s ++ rest).dropWhile isWs = rest.dropWhile isWs := by
  induction s with
  | nil => rfl
  | cons c cs ih =>
    simp only [List.cons_append, List.dropWhile_cons, hs c (by simp),
      if_true]
    exact ih (fun a ha => hs a (by simp [ha]))

lemma takeWhile_not_ws (t rest : List Char)
    (ht : ∀ c ∈ t, isWs c = false)
    (hr : ∀ c, rest.head? = some c → isWs c = true) :
    (t ++ rest).takeWhile (fun c => !(isWs c)) = t := by
  induction t with
  | nil =>
    cases rest with
    | nil => rfl
    | cons c cs => simp [List.takeWhile_cons, hr c rfl]
  | cons c cs ih =>
    simp only [List.cons_append, List.takeWhile_cons, ht c (by simp),
      Bool.not_false, if_true]
    rw [ih (fun a ha => ht a (by simp [ha]))]

lemma head_ws_append (s rest : List Char) (hs : WsRun s) :
    ∀ c, (s ++ rest).head? = some c → isWs c = true := by
  obtain ⟨hne, hw⟩ := hs
  cases s with
  | nil => exact absurd rfl hne
  | cons a as =>
    intro c hc
    simp only [List.cons_append, List.head?_cons, Option.some.injEq] at hc
    exact hc ▸ hw a (by simp)

lemma scanStr_exact (w : Nat) (t rest : List Char) (ht : ScanTok w t)
    (hr : ∀ c, rest.head? = some c → isWs c = true) :
    scanStr w (t ++ rest) = some (t, rest) := by
  obtain ⟨hne, hnw, hlen⟩ := ht
  have hdw : (t ++ rest).dropWhile isWs = t ++ rest := by
    cases t with
    | nil => exact absurd rfl hne
    | cons c cs => simp [List.dropWhile_cons, hnw c (by simp)]
  have hie : (t ++ rest).isEmpty = false := by
    cases t with
    | nil => exact absurd rfl hne
    | cons c cs => simp
  simp only [scanStr, hdw, hie, Bool.false_eq_true, if_false,
    takeWhile_not_ws t rest hnw hr, List.take_of_length_le hlen,
    List.drop_left]

lemma scanStr_skip (w : Nat) (s rest : List Char)
    (hs : ∀ c ∈ s, isWs c = true) :
    scanStr w (s ++ rest) = scanStr w rest := by
  simp only [scanStr, dropWhile_ws_append s rest hs]

lemma scanStr_nil (w : Nat) : scanStr w [] = none := by simp [scanStr]

/-- C2 amended: the detail tuple is parsed by whitespace-delimited token
assignment into size, model, vendor, transport in that order (each within
its `%Ns` width), and missing trailing tokens leave the corresponding
fields unchanged — holding the struct's previous contents, not the empty
string. -/
theorem c2_parse (d : DriveInfo) (t1 t2 t3 t4 s1 s2 s3 : List Char)
    (h1 : ScanTok 63 t1) (h2 : ScanTok 127 t2) (h3 : ScanTok 127 t3)
    (h4 : ScanTok 31 t4) (hs1 : WsRun s1) (hs2 : WsRun s2) (hs3 : WsRun s3) :
    sscanf4 [] d = d ∧
    sscanf4 t1 d = { d with size := t1 } ∧
    sscanf4 (t1 ++ (s1 ++ t2)) d = { d with size := t1, model := t2 } ∧
    sscanf4 (t1 ++ (s1 ++ (t2 ++ (s2 ++ t3)))) d =
      { d with size := t1, model := t2, vendor := t3 } ∧
    sscanf4 (t1 ++ (s1 ++ (t2 ++ (s2 ++ (t3 ++ (s3 ++ t4)))))) d =
      { d with size := t1, model := t2, vendor := t3, transport := t4 } := by
  refine ⟨by simp [sscanf4, scanStr], ?_, ?_, ?_, ?_⟩
  · have a1 : scanStr 63 t1 = some (t1, []) := by
      simpa using scanStr_exact 63 t1 [] h1 (by simp)
    simp [sscanf4, a1, scanStr_nil]
  · have a1 : scanStr 63 (t1 ++ (s1 ++ t2)) = some (t1, s1 ++ t2) :=
      scanStr_exact 63 t1 (s1 ++ t2) h1 (head_ws_append s1 t2 hs1)
    have a2 : scanStr 127 (s1 ++ t2) = some (t2, []) := by
      rw [scanStr_skip 127 s1 t2 hs1.2]
      simpa using scanStr_exact 127 t2 [] h2 (by simp)
    simp [sscanf4, a1, a2, scanStr_nil]
  · have a1 : scanStr 63 (t1 ++ (s1 ++ (t2 ++ (s2 ++ t3)))) =
        some (t1, s1 ++ (t2 ++ (s2 ++ t3))) :=
      scanStr_exact 63 t1 _ h1 (head_ws_append s1 _ hs1)
    have a2 : scanStr 127 (s1 ++ (t2 ++ (s2 ++ t3))) =
        some (t2, s2 ++ t3) := by
      rw [scanStr_skip 127 s1 _ hs1.2]
      exact scanStr_exact 127 t2 (s2 ++ t3) h2 (head_ws_append s2 t3 hs2)
    have a3 : scanStr 127 (s2 ++ t3) = some (t3, []) := by
      rw [scanStr_skip 127 s2 t3 hs2.2]
      simpa using scanStr_exact 127 t3 [] h3 (by simp)
    simp [sscanf4, a1, a2, a3, scanStr_nil]
  · have a1 : scanStr 63 (t1 ++ (s1 ++ (t2 ++ (s2 ++ (t3 ++ (s3 ++ t4)))))) =
        some (t1, s1 ++ (t2 ++ (s2 ++ (t3 ++ (s3 ++ t4))))) :=
      scanStr_exact 63 t1 _ h1 (head_ws_append s1 _ hs1)
    have a2 : scanStr 127 (s1 ++ (t2 ++ (s2 ++ (t3 ++ (s3 ++ t4))))) =
        some (t2, s2 ++ (t3 ++ (s3 ++ t4))) := by
      rw [scanStr_skip 127 s1 _ hs1.2]
      exact scanStr_exact 127 t2 _ h2 (head_ws_append s2 _ hs2)
    have a3 : scanStr 127 (s2 ++ (t3 ++ (s3 ++ t4))) =
        some (t3, s3 ++ t4) := by
      rw [scanStr_skip 127 s2 _ hs2.2]
      exact scanStr_exact 127 t3 (s3 ++ t4) h3 (head_ws_append s3 t4 hs3)
    have a4 : scanStr 31 (s3 ++ t4) = some (t4, []) := by
      rw [scanStr_skip 31 s3 t4 hs3.2]
      simpa using scanStr_exact 31 t4 [] h4 (by simp)
    simp [sscanf4, a1, a2, a3, a4]

/-- Witness for `c2_parse`: a concrete four-token detail line. -/
theorem c2_parse_witness :
    ScanTok 63 ("3.6T".toList) ∧
    sscanf4 ("3.6T".toList ++ (" ".toList ++ ("Elements".toList ++
        (" ".toList ++ ("Seagate".toList ++ (" ".toList ++ "usb".toList))))))
        {} =
      { size := "3.6T".toList, model := "Elements".toList,
        vendor := "Seagate".toList, transport := "usb".toList } :=
  ⟨by decide,
   (c2_parse {} ("3.6T".toList) ("Elements".toList) ("Seagate".toList)
      ("usb".toList) (" ".toList) (" ".toList) (" ".toList)
      (by decide) (by decide) (by decide) (by decide) (by decide) (by decide)
      (by decide)).2.2.2.2⟩

lemma bufGet_writeOut (b : Buf) (t : List Char) (i : Nat) :
    bufGet (writeOut b t) i =
      if i < (t.take (bufCap - 1)).length then (t.take (bufCap - 1)).getD i nulC
      else if i = (t.take (bufCap - 1)).length then nulC
      else bufGet b i := by
  simp only [writeOut, bufGet]
  rcases Nat.lt_trichotomy i (t.take (bufCap - 1)).length with h | h | h
  · rw [if_pos h, List.getD_eq_getElem?_getD, List.getElem?_append_left h,
      ← List.getD_eq_getElem?_getD]
  · rw [if_neg (by omega), if_pos h, List.getD_eq_getElem?_getD, h,
      List.getElem?_append_right (Nat.le_refl _), Nat.sub_self]
    simp
  · rw [if_neg (by omega), if_neg (by omega), List.getD_eq_getElem?_getD,
      List.getElem?_append_right (Nat.le_of_lt h)]
    obtain ⟨m, hm⟩ : ∃ m, i - (t.take (bufCap - 1)).length = m + 1 :=
      ⟨i - (t.take (bufCap - 1)).length - 1, by omega⟩
    rw [hm, List.getElem?_cons_succ, List.getElem?_drop,
      ← List.getD_eq_getElem?_getD]
    congr 1
    omega

lemma bufGet_setNul (b : Buf) (q i : Nat) :
    bufGet (setNul b q) i = if i = q then nulC else bufGet b i := by
  simp only [setNul, bufGet]
  rcases eq_or_ne i q with h | h
  · subst h
    rw [if_pos rfl]
    rcases Nat.lt_or_ge i b.length with hl | hl
    · rw [List.getD_eq_getElem?_getD, List.getElem?_set_eq_of_lt _ hl]
      rfl
    · rw [List.set_eq_of_length_le hl, List.getD_eq_getElem?_getD,
        List.getElem?_eq_none (by simpa using hl)]
      rfl
  · rw [if_neg h, List.getD_eq_getElem?_getD,
      List.getElem?_set_ne (fun he => h he.symm), ← List.getD_eq_getElem?_getD]

lemma bufGet_drop_zero (b : Buf) (s : Nat) :
    (b.drop s).getD 0 nulC = bufGet b s := by
  simp only [bufGet]
  rw [List.getD_eq_getElem?_getD, List.getElem?_drop, Nat.add_zero,
    ← List.getD_eq_getElem?_getD]

lemma drop_cons_of_ne_nul (b : Buf) (s : Nat) (h : bufGet b s ≠ nulC) :
    b.drop s = bufGet b s :: b.drop (s + 1) := by
  have hlen : s < b.length := by
    by_contra hc
    exact h (by simp [bufGet, List.getD_eq_getElem?_getD,
      List.getElem?_eq_none (by omega : b.length ≤ s)])
  rw [List.drop_eq_getElem_cons hlen]
  congr 1
  simp [bufGet, List.getD_eq_getElem?_getD, List.getElem?_eq_getElem hlen]

lemma takeWhile_nil_of_head (p : Char → Bool) (b : Buf) (s : Nat)
    (h : p (bufGet b s) = false) : (b.drop s).takeWhile p = [] := by
  cases hd : b.drop s with
  | nil => rfl
  | cons c cs =>
    have hc : c = bufGet b s := by
      have := bufGet_drop_zero b s
      rw [hd] at this
      simpa using this
    rw [List.takeWhile_cons, hc, h]
    simp

lemma takeWhile_congr_upto (p : Char → Bool) (hp : p nulC = false) :
    ∀ (n s : Nat) (b b' : Buf), bufGet b (s + n) = nulC →
      (∀ i, i ≤ s + n → bufGet b i = bufGet b' i) →
      (b.drop s).takeWhile p = (b'.drop s).takeWhile p := by
  intro n
  induction n with
  | zero =>
    intro s b b' hnul hag
    rw [Nat.add_zero] at hnul hag
    have h0 : p (bufGet b s) = false := by rw [hnul]; exact hp
    have h0' : p (bufGet b' s) = false := by rw [← hag s (Nat.le_refl s)]; exact h0
    rw [takeWhile_nil_of_head p b s h0, takeWhile_nil_of_head p b' s h0']
  | succ n ih =>
    intro s b b' hnul hag
    by_cases hps : p (bufGet b s) = true
    · have hne : bufGet b s ≠ nulC := fun he => by
        rw [he, hp] at hps
        exact Bool.false_ne_true hps
      have hsv : bufGet b' s = bufGet b s := (hag s (by omega)).symm
      have hne' : bufGet b' s ≠ nulC := by rw [hsv]; exact hne
      rw [drop_cons_of_ne_nul b s hne, drop_cons_of_ne_nul b' s hne']
      rw [List.takeWhile_cons, List.takeWhile_cons, hsv, hps]
      simp only [if_true]
      congr 1
      exact ih (s + 1) b b' (by rw [show s + 1 + n = s + (n + 1) by omega]; exact hnul)
        (fun i hi => hag i (by omega))
    · have hpsf : p (bufGet b s) = false := by simpa using hps
      have hps' : p (bufGet b' s) = false := by
        rw [← hag s (by omega)]; exact hpsf
      rw [takeWhile_nil_of_head p b s hpsf, takeWhile_nil_of_head p b' s hps']

lemma takeWhile_len_le (p : Char → Bool) (hp : p nulC = false) :
    ∀ (n s : Nat) (b : Buf), p (bufGet b (s + n)) = false →
      ((b.drop s).takeWhile p).length ≤ n := by
  intro n
  induction n with
  | zero =>
    intro s b h
    rw [Nat.add_zero] at h
    rw [takeWhile_nil_of_head p b s h]
    simp
  | succ n ih =>
    intro s b h
    by_cases hps : p (bufGet b s) = true
    · have hne : bufGet b s ≠ nulC := fun he => by
        rw [he, hp] at hps
        exact Bool.false_ne_true hps
      rw [drop_cons_of_ne_nul b s hne, List.takeWhile_cons, hps]
      simp only [if_true, List.length_cons]
      have := ih (s + 1) b
        (by rw [show s + 1 + n = s + (n + 1) by omega]; exact h)
      omega
    · rw [takeWhile_nil_of_head p b s (by simpa using hps)]
      simp

lemma take_takeWhile_length (p : Char → Bool) :
    ∀ (l : List Char), l.take (l.takeWhile p).length = l.takeWhile p := by
  intro l
  induction l with
  | nil => rfl
  | cons c cs ih =>
    rw [List.takeWhile_cons]
    by_cases h : p c
    · rw [if_pos h]
      simp only [List.length_cons, List.take_succ_cons]
      rw [ih]
    · rw [if_neg h]
      simp

lemma good_mono (b b' : Buf) (s s' : Nat) (h : Good b b' s) (hs : s' ≤ s) :
    Good b b' s' := by
  obtain ⟨k, hsk, hknul, hag⟩ := h
  exact ⟨k, Nat.le_trans hs hsk, hknul, hag⟩

lemma good_symm (b b' : Buf) (s : Nat) (h : Good b b' s) : Good b' b s := by
  obtain ⟨k, hsk, hknul, hag⟩ := h
  exact ⟨k, hsk, by rw [← hag k (Nat.le_refl k)]; exact hknul,
    fun i hi => (hag i hi).symm⟩

lemma cstr_congr (b b' : Buf) (p : Nat) (h : Good b b' p) :
    cstr b p = cstr b' p := by
  obtain ⟨k, hsk, hknul, hag⟩ := h
  apply takeWhile_congr_upto _ (by decide) (k - p) p
  · rw [show p + (k - p) = k by omega]
    exact hknul
  · intro i hi
    exact hag i (by omega)

lemma good_writeOut_zero (b b' : Buf) (t : List Char) :
    Good (writeOut b t) (writeOut b' t) 0 := by
  refine ⟨(t.take (bufCap - 1)).length, Nat.zero_le _, ?_, ?_⟩
  · rw [bufGet_writeOut]
    rw [if_neg (Nat.lt_irrefl _), if_pos rfl]
  · intro i hi
    rw [bufGet_writeOut, bufGet_writeOut]
    rcases Nat.lt_or_ge i (t.take (bufCap - 1)).length with h1 | h1
    · rw [if_pos h1, if_pos h1]
    · have h2 : i = (t.take (bufCap - 1)).length := by omega
      rw [if_neg (by omega), if_pos h2, if_neg (by omega), if_pos h2]

lemma good_writeOut (b b' : Buf) (t : List Char) (s : Nat)
    (h : Good b b' s) : Good (writeOut b t) (writeOut b' t) s := by
  obtain ⟨k, hsk, hknul, hag⟩ := h
  by_cases hsL : s ≤ (t.take (bufCap - 1)).length
  · refine ⟨(t.take (bufCap - 1)).length, hsL, ?_, ?_⟩
    · rw [bufGet_writeOut]
      rw [if_neg (Nat.lt_irrefl _), if_pos rfl]
    · intro i hi
      rw [bufGet_writeOut, bufGet_writeOut]
      rcases Nat.lt_or_ge i (t.take (bufCap - 1)).length with h1 | h1
      · rw [if_pos h1, if_pos h1]
      · have h2 : i = (t.take (bufCap - 1)).length := by omega
        rw [if_neg (by omega), if_pos h2, if_neg (by omega), if_pos h2]
  · refine ⟨k, hsk, ?_, ?_⟩
    · rw [bufGet_writeOut, if_neg (by omega), if_neg (by omega)]
      exact hknul
    · intro i hi
      rw [bufGet_writeOut, bufGet_writeOut]
      by_cases h1 : i < (t.take (bufCap - 1)).length
      · rw [if_pos h1, if_pos h1]
      · by_cases h2 : i = (t.take (bufCap - 1)).length
        · rw [if_neg h1, if_pos h2, if_neg h1, if_pos h2]
        · rw [if_neg h1, if_neg h2, if_neg h1, if_neg h2]
          exact hag i hi

lemma good_setNul (b b' : Buf) (q s : Nat) (h : Good b b' s) :
    Good (setNul b q) (setNul b' q) s := by
  obtain ⟨k, hsk, hknul, hag⟩ := h
  refine ⟨k, hsk, ?_, ?_⟩
  · rw [bufGet_setNul]
    split
    · rfl
    · exact hknul
  · intro i hi
    rw [bufGet_setNul, bufGet_setNul]
    split
    · rfl
    · exact hag i hi

lemma strtokNext_eq_none (b : Buf) (s p1 : Nat)
    (hp1 : p1 = s + ((b.drop s).takeWhile (fun c => c = nlC)).length)
    (h : bufGet b p1 = nulC) : strtokNext b s = (none, b, p1) := by
  subst hp1
  simp only [strtokNext]
  rw [if_pos h]

lemma strtokNext_eq_tok_nul (b : Buf) (s p1 len : Nat)
    (hp1 : p1 = s + ((b.drop s).takeWhile (fun c => c = nlC)).length)
    (hne : ¬ bufGet b p1 = nulC)
    (hlen : len =
      ((b.drop p1).takeWhile (fun c => ¬ (c = nlC ∨ c = nulC))).length)
    (hq : bufGet b (p1 + len) = nulC) :
    strtokNext b s = (some (p1, (b.drop p1).take len), b, p1 + len) := by
  subst hp1
  subst hlen
  simp only [strtokNext]
  rw [if_neg hne, if_pos hq]

lemma strtokNext_eq_tok_nl (b : Buf) (s p1 len : Nat)
    (hp1 : p1 = s + ((b.drop s).takeWhile (fun c => c = nlC)).length)
    (hne : ¬ bufGet b p1 = nulC)
    (hlen : len =
      ((b.drop p1).takeWhile (fun c => ¬ (c = nlC ∨ c = nulC))).length)
    (hq : ¬ bufGet b (p1 + len) = nulC) :
    strtokNext b s =
      (some (p1, (b.drop p1).take len), setNul b (p1 + len), p1 + len + 1) := by
  subst hp1
  subst hlen
  simp only [strtokNext]
  rw [if_neg hne, if_neg hq]

lemma strtokNext_congr (b b' : Buf) (s : Nat) (h : Good b b' s) :
    (strtokNext b s).1 = (strtokNext b' s).1 ∧
    (strtokNext b s).2.2 = (strtokNext b' s).2.2 ∧
    Good (strtokNext b s).2.1 (strtokNext b' s).2.1 (strtokNext b s).2.2 ∧
    ∀ pt, (strtokNext b s).1 = some pt →
      Good (strtokNext b s).2.1 (strtokNext b' s).2.1 pt.1 := by
  obtain ⟨k, hsk, hknul, hag⟩ := h
  have hskip : (b.drop s).takeWhile (fun c => c = nlC) =
      (b'.drop s).takeWhile (fun c => c = nlC) := by
    apply takeWhile_congr_upto _ (by decide) (k - s) s
    · rw [show s + (k - s) = k from by omega]
      exact hknul
    · intro i hi
      exact hag i (by omega)
  set P1 := s + ((b.drop s).takeWhile (fun c => c = nlC)).length with hP1def
  have hp1k : P1 ≤ k := by
    have := takeWhile_len_le (fun c => c = nlC) (by decide) (k - s) s b
      (by rw [show s + (k - s) = k from by omega, hknul]; decide)
    omega
  have hp1'eq : P1 = s + ((b'.drop s).takeWhile (fun c => c = nlC)).length := by
    rw [hP1def, hskip]
  have hagP1 : bufGet b P1 = bufGet b' P1 := hag P1 hp1k
  by_cases hnul1 : bufGet b P1 = nulC
  · have e := strtokNext_eq_none b s P1 hP1def hnul1
    have e' := strtokNext_eq_none b' s P1 hp1'eq (by rw [← hagP1]; exact hnul1)
    rw [e, e']
    refine ⟨rfl, rfl, ⟨k, hp1k, hknul, hag⟩, ?_⟩
    intro pt hpt
    simp at hpt
  · have hnul1' : ¬ bufGet b' P1 = nulC := by rw [← hagP1]; exact hnul1
    have hscan : (b.drop P1).takeWhile (fun c => ¬ (c = nlC ∨ c = nulC)) =
        (b'.drop P1).takeWhile (fun c => ¬ (c = nlC ∨ c = nulC)) := by
      apply takeWhile_congr_upto _ (by decide) (k - P1) P1
      · rw [show P1 + (k - P1) = k from by omega]
        exact hknul
      · intro i hi
        exact hag i (by omega)
    set L := ((b.drop P1).takeWhile (fun c => ¬ (c = nlC ∨ c = nulC))).length
      with hLdef
    have hL'eq :
        L = ((b'.drop P1).takeWhile (fun c => ¬ (c = nlC ∨ c = nulC))).length := by
      rw [hLdef, hscan]
    have hqk : P1 + L ≤ k := by
      have := takeWhile_len_le (fun c => ¬ (c = nlC ∨ c = nulC)) (by decide)
        (k - P1) P1 b
        (by rw [show P1 + (k - P1) = k from by omega, hknul]; decide)
      omega
    have htok : (b.drop P1).take L = (b'.drop P1).take L := by
      calc (b.drop P1).take L
          = (b.drop P1).takeWhile (fun c => ¬ (c = nlC ∨ c = nulC)) := by
            rw [hLdef]
            exact take_takeWhile_length _ _
        _ = (b'.drop P1).takeWhile (fun c => ¬ (c = nlC ∨ c = nulC)) := hscan
        _ = (b'.drop P1).take L := by
            rw [hL'eq]
            exact (take_takeWhile_length _ _).symm
    have hagq : bufGet b (P1 + L) = bufGet b' (P1 + L) := hag _ hqk
    by_cases hqn : bufGet b (P1 + L) = nulC
    · have e := strtokNext_eq_tok_nul b s P1 L hP1def hnul1 hLdef hqn
      have e' := strtokNext_eq_tok_nul b' s P1 L hp1'eq hnul1' hL'eq
        (by rw [← hagq]; exact hqn)
      rw [e, e']
      have hgood : ∀ s0, s0 ≤ k → Good b b' s0 :=
        fun s0 hs0 => ⟨k, hs0, hknul, hag⟩
      refine ⟨by rw [htok], rfl, hgood (P1 + L) hqk, ?_⟩
      intro pt hpt
      have hpt1 : pt.1 = P1 := by
        injection hpt with h2
        rw [← h2]
      rw [hpt1]
      exact hgood P1 hp1k
    · have hq' : ¬ bufGet b' (P1 + L) = nulC := by rw [← hagq]; exact hqn
      have hqltk : P1 + L < k := by
        rcases Nat.lt_or_ge (P1 + L) k with hlt | hge
        · exact hlt
        · have hek : P1 + L = k := by omega
          rw [hek] at hqn
          exact absurd hknul hqn
      have e := strtokNext_eq_tok_nl b s P1 L hP1def hnul1 hLdef hqn
      have e' := strtokNext_eq_tok_nl b' s P1 L hp1'eq hnul1' hL'eq hq'
      rw [e, e']
      have hgood : ∀ s0, s0 ≤ k →
          Good (setNul b (P1 + L)) (setNul b' (P1 + L)) s0 := by
        intro s0 hs0
        refine ⟨k, hs0, ?_, ?_⟩
        · rw [bufGet_setNul]
          split
          · rfl
          · exact hknul
        · intro i hi
          rw [bufGet_setNul, bufGet_setNul]
          split
          · rfl
          · exact hag i hi
      refine ⟨by rw [htok], rfl, hgood (P1 + L + 1) (by omega), ?_⟩
      intro pt hpt
      have hpt1 : pt.1 = P1 := by
        injection hpt with h2
        rw [← h2]
      rw [hpt1]
      exact hgood P1 hp1k

lemma mountLoop_congr (fuel : Nat) :
    ∀ (b b' : Buf) (s : Nat) (line : Option (Nat × List Char))
      (acc : List (List Char)), Good b b' s →
      (mountLoop fuel b s line acc).1 = (mountLoop fuel b' s line acc).1 ∧
      (mountLoop fuel b s line acc).2.2 = (mountLoop fuel b' s line acc).2.2 ∧
      Good (mountLoop fuel b s line acc).2.1
        (mountLoop fuel b' s line acc).2.1
        (mountLoop fuel b s line acc).2.2 := by
  induction fuel with
  | zero =>
    intro b b' s line acc h
    cases line with
    | none => exact ⟨rfl, rfl, h⟩
    | some pt => exact ⟨rfl, rfl, h⟩
  | succ n ih =>
    intro b b' s line acc h
    cases line with
    | none => exact ⟨rfl, rfl, h⟩
    | some pt =>
      simp only [mountLoop]
      split
      · obtain ⟨h1, h2, h3, _⟩ := strtokNext_congr b b' s h
        rw [← h1, ← h2]
        exact ih _ _ _ _ _ h3
      · exact ⟨rfl, rfl, h⟩

lemma get_drive_info_congr (env : Env) (b b' : Buf) (ptr : Nat)
    (prior : DriveInfo) (h : Good b b' ptr) :
    (get_drive_info env b ptr prior).1 = (get_drive_info env b' ptr prior).1 ∧
    (get_drive_info env b ptr prior).2.2 =
      (get_drive_info env b' ptr prior).2.2 ∧
    Good (get_drive_info env b ptr prior).2.1
      (get_drive_info env b' ptr prior).2.1
      (get_drive_info env b ptr prior).2.2 := by
  have hdrive : cstr b ptr = cstr b' ptr := cstr_congr b b' ptr h
  have hg1 : Good (writeOut b (env.detail (cstr b ptr)))
      (writeOut b' (env.detail (cstr b ptr))) 0 := good_writeOut_zero _ _ _
  have hg1p : Good (writeOut b (env.detail (cstr b ptr)))
      (writeOut b' (env.detail (cstr b ptr))) ptr := good_writeOut _ _ _ _ h
  have hin : cstr (writeOut b (env.detail (cstr b ptr))) 0 =
      cstr (writeOut b' (env.detail (cstr b ptr))) 0 := cstr_congr _ _ _ hg1
  have hkey : cstr (writeOut b (env.detail (cstr b ptr))) ptr =
      cstr (writeOut b' (env.detail (cstr b ptr))) ptr := cstr_congr _ _ _ hg1p
  simp only [get_drive_info]
  rw [← hdrive, ← hkey, ← hin]
  have hg2 : Good
      (writeOut (writeOut b (env.detail (cstr b ptr)))
        (env.mountpt (cstr (writeOut b (env.detail (cstr b ptr))) ptr)))
      (writeOut (writeOut b' (env.detail (cstr b ptr)))
        (env.mountpt (cstr (writeOut b (env.detail (cstr b ptr))) ptr)))
      0 := good_writeOut_zero _ _ _
  obtain ⟨e1, e2, e3, _⟩ := strtokNext_congr _ _ 0 hg2
  rw [← e1, ← e2]
  obtain ⟨m1, m2, m3⟩ := mountLoop_congr (bufCap + 2) _ _ _ _ [] e3
  exact ⟨by rw [m1], m2, m3⟩

lemma drivesLoop_congr (env : Env) (fuel : Nat) :
    ∀ (b b' : Buf) (line : Option (Nat × List Char))
      (priors : List DriveInfo),
      (∀ pt, line = some pt → Good b b' pt.1) →
      (drivesLoop env fuel b line priors).1 =
        (drivesLoop env fuel b' line priors).1 := by
  induction fuel with
  | zero =>
    intro b b' line priors h
    cases line <;> rfl
  | succ n ih =>
    intro b b' line priors h
    cases line with
    | none => rfl
    | some pt =>
      simp only [drivesLoop]
      obtain ⟨g1, g2, g3⟩ :=
        get_drive_info_congr env b b' pt.1 (priors.headD default) (h pt rfl)
      rw [← g1]
      simp only [List.cons.injEq, true_and]
      rw [← g2]
      obtain ⟨e1, e2, e3, e4⟩ := strtokNext_congr
        (get_drive_info env b pt.1 (priors.headD default)).2.1
        (get_drive_info env b' pt.1 (priors.headD default)).2.1
        (get_drive_info env b pt.1 (priors.headD default)).2.2 g3
      rw [← e1]
      exact ih _ _ _ _ e4

lemma get_root_drive_congr (env : Env) (b b' : Buf) :
    (get_root_drive env b).1 = (get_root_drive env b').1 ∧
    Good (get_root_drive env b).2 (get_root_drive env b').2 0 := by
  have hg1 : Good (writeOut b env.rootOut) (writeOut b' env.rootOut) 0 :=
    good_writeOut_zero _ _ _
  have hc : cstr (writeOut b env.rootOut) 0 =
      cstr (writeOut b' env.rootOut) 0 := cstr_congr _ _ _ hg1
  simp only [get_root_drive]
  rw [← hc]
  cases hidx : (cstr (writeOut b env.rootOut) 0).findIdx? (fun c => c = nlC) with
  | none => exact ⟨by rw [hc], hg1⟩
  | some k =>
    have hgs : Good (setNul (writeOut b env.rootOut) k)
        (setNul (writeOut b' env.rootOut) k) 0 := good_setNul _ _ _ _ hg1
    exact ⟨by rw [cstr_congr _ _ _ hgs], hgs⟩

lemma get_drivesL_congr (env : Env) (b b' : Buf) (priors : List DriveInfo)
    (max : Nat) (listing : List Char) :
    (get_drivesL env b priors max listing).1 =
      (get_drivesL env b' priors max listing).1 := by
  simp only [get_drivesL]
  obtain ⟨e1, e2, e3, e4⟩ :=
    strtokNext_congr (writeOut b listing) (writeOut b' listing) 0
      (good_writeOut_zero _ _ _)
  rw [← e1]
  exact drivesLoop_congr env max _ _ _ _ e4

/-- The catalog `get_drives` builds is a function of the environment and
the prior array contents alone: the static buffer's initial contents never
influence it, because every read the function performs is stopped by a NUL
written during the same call. -/
lemma get_drives_congr (env : Env) (b b' : Buf) (priors : List DriveInfo)
    (max : Nat) :
    (get_drives env b priors max).1 = (get_drives env b' priors max).1 := by
  simp only [get_drives]
  obtain ⟨r1, r2⟩ := get_root_drive_congr env b b'
  rw [← r1]
  exact get_drivesL_congr env _ _ priors max _

lemma sscanf4_update (input : List Char) (d : DriveInfo) (p : List Char)
    (m : List (List Char)) :
    sscanf4 input { d with path := p, mountpoints := m } =
      { sscanf4 input d with path := p, mountpoints := m } := by
  rcases h1 : scanStr 63 input with _ | ⟨t1, r1⟩
  · simp only [sscanf4, h1]
  · rcases h2 : scanStr 127 r1 with _ | ⟨t2, r2⟩
    · simp only [sscanf4, h1, h2]
    · rcases h3 : scanStr 127 r2 with _ | ⟨t3, r3⟩
      · simp only [sscanf4, h1, h2, h3]
      · rcases h4 : scanStr 31 r3 with _ | ⟨t4, r4⟩ <;>
          simp only [sscanf4, h1, h2, h3, h4]

lemma sscanf4_idem (input : List Char) (d : DriveInfo) :
    sscanf4 input (sscanf4 input d) = sscanf4 input d := by
  rcases h1 : scanStr 63 input with _ | ⟨t1, r1⟩
  · simp only [sscanf4, h1]
  · rcases h2 : scanStr 127 r1 with _ | ⟨t2, r2⟩
    · simp only [sscanf4, h1, h2]
    · rcases h3 : scanStr 127 r2 with _ | ⟨t3, r3⟩
      · simp only [sscanf4, h1, h2, h3]
      · rcases h4 : scanStr 31 r3 with _ | ⟨t4, r4⟩ <;>
          simp only [sscanf4, h1, h2, h3, h4]

lemma get_drive_info_state_irrel (env : Env) (b : Buf) (ptr : Nat)
    (X Y : DriveInfo) :
    (get_drive_info env b ptr X).2 = (get_drive_info env b ptr Y).2 := rfl

lemma get_drive_info_mounts_irrel (env : Env) (b : Buf) (ptr : Nat)
    (X Y : DriveInfo) :
    (get_drive_info env b ptr X).1.mountpoints =
      (get_drive_info env b ptr Y).1.mountpoints := rfl

lemma get_drive_info_fields (env : Env) (b : Buf) (ptr : Nat) (X : DriveInfo) :
    (get_drive_info env b ptr X).1 =
      { sscanf4 (cstr (writeOut b (env.detail (cstr b ptr))) 0) X with
        path := cstr b ptr,
        mountpoints := (get_drive_info env b ptr X).1.mountpoints } := rfl

lemma get_drive_info_idem (env : Env) (b b' : Buf) (ptr : Nat)
    (prior : DriveInfo) (h : Good b b' ptr) :
    (get_drive_info env b' ptr ((get_drive_info env b ptr prior).1)).1 =
      (get_drive_info env b ptr prior).1 ∧
    (get_drive_info env b ptr prior).2.2 =
      (get_drive_info env b' ptr ((get_drive_info env b ptr prior).1)).2.2 ∧
    Good (get_drive_info env b ptr prior).2.1
      (get_drive_info env b' ptr ((get_drive_info env b ptr prior).1)).2.1
      (get_drive_info env b ptr prior).2.2 := by
  obtain ⟨g1, g2, g3⟩ := get_drive_info_congr env b b' ptr prior h
  have hstate : (get_drive_info env b' ptr
        ((get_drive_info env b ptr prior).1)).2 =
      (get_drive_info env b' ptr prior).2 :=
    get_drive_info_state_irrel env b' ptr _ _
  refine ⟨?_, ?_, ?_⟩
  · have hdrive : cstr b ptr = cstr b' ptr := cstr_congr b b' ptr h
    have hin : cstr (writeOut b (env.detail (cstr b ptr))) 0 =
        cstr (writeOut b' (env.detail (cstr b ptr))) 0 :=
      cstr_congr _ _ _ (good_writeOut_zero _ _ _)
    rw [get_drive_info_fields env b' ptr ((get_drive_info env b ptr prior).1)]
    rw [get_drive_info_mounts_irrel env b' ptr _ prior]
    rw [← g1, ← hdrive, ← hin]
    rw [get_drive_info_fields env b ptr prior]
    rw [sscanf4_update, sscanf4_idem]
  · rw [congrArg Prod.snd hstate]
    exact g2
  · rw [congrArg Prod.fst hstate]
    exact g3

lemma drivesLoop_idem (env : Env) (fuel : Nat) :
    ∀ (b b' : Buf) (line : Option (Nat × List Char))
      (priors extra : List DriveInfo),
      (∀ pt, line = some pt → Good b b' pt.1) →
      (drivesLoop env fuel b' line
        ((drivesLoop env fuel b line priors).1 ++ extra)).1 =
      (drivesLoop env fuel b line priors).1 := by
  induction fuel with
  | zero =>
    intro b b' line priors extra h
    cases line <;> rfl
  | succ n ih =>
    intro b b' line priors extra h
    cases line with
    | none => rfl
    | some pt =>
      simp only [drivesLoop, List.cons_append, List.headD_cons, List.tail_cons]
      obtain ⟨i1, i2, i3⟩ :=
        get_drive_info_idem env b b' pt.1 (priors.headD default) (h pt rfl)
      rw [i1]
      congr 1
      rw [← i2]
      obtain ⟨e1, e2, e3, e4⟩ := strtokNext_congr
        (get_drive_info env b pt.1 (priors.headD default)).2.1
        (get_drive_info env b' pt.1
          ((get_drive_info env b pt.1 (priors.headD default)).1)).2.1
        (get_drive_info env b pt.1 (priors.headD default)).2.2 i3
      rw [← e1]
      exact ih _ _ _ _ _ e4

/-- C8: running the catalog builder twice with unchanged system state (the
same external outputs) yields the same catalog — same records with the same
fields and mount points in the same order — even though the second run
starts from the buffer contents and `drives`-array contents the first run
left behind.  (Every buffer read is stopped by a NUL written during the
same run, and re-parsing a record over its own previous contents is
stable.) -/
theorem c8_idempotent (env : Env) (arr : List DriveInfo) (b : Buf) :
    (get_drives env (get_drives env b arr 32).2
      ((get_drives env b arr 32).1 ++
        arr.drop (get_drives env b arr 32).1.length) 32).1 =
    (get_drives env b arr 32).1 := by
  obtain ⟨r1, r2⟩ := get_root_drive_congr env b ((get_drives env b arr 32).2)
  have hL : (get_drives env (get_drives env b arr 32).2
      ((get_drives env b arr 32).1 ++
        arr.drop (get_drives env b arr 32).1.length) 32).1 =
      (get_drivesL env (get_root_drive env ((get_drives env b arr 32).2)).2
        ((get_drives env b arr 32).1 ++
          arr.drop (get_drives env b arr 32).1.length) 32
        (awkDiskFilter (get_root_drive env ((get_drives env b arr 32).2)).1
          env.lsblkTable)).1 := rfl
  rw [hL, ← r1]
  have hR : (get_drives env b arr 32).1 =
      (get_drivesL env (get_root_drive env b).2 arr 32
        (awkDiskFilter (get_root_drive env b).1 env.lsblkTable)).1 := rfl
  rw [hR]
  simp only [get_drivesL]
  obtain ⟨e1, e2, e3, e4⟩ := strtokNext_congr
    (writeOut (get_root_drive env b).2
      (awkDiskFilter (get_root_drive env b).1 env.lsblkTable))
    (writeOut (get_root_drive env ((get_drives env b arr 32).2)).2
      (awkDiskFilter (get_root_drive env b).1 env.lsblkTable))
    0 (good_writeOut_zero _ _ _)
  rw [← e1]
  exact drivesLoop_idem env 32 _ _ _ _ _ e4

lemma takeWhile_append_stop (p : Char → Bool) (t rest : List Char)
    (ht : ∀ c ∈ t, p c = true)
    (hr : ∀ c, rest.head? = some c → p c = false) :
    (t ++ rest).takeWhile p = t := by
  induction t with
  | nil =>
    cases rest with
    | nil => rfl
    | cons c cs => simp [List.takeWhile_cons, hr c rfl]
  | cons c cs ih =>
    simp only [List.cons_append, List.takeWhile_cons, ht c (by simp), if_true]
    rw [ih (fun a ha => ht a (by simp [ha]))]

lemma bufGet_append_left (t rest : List Char) (i : Nat) (h : i < t.length) :
    bufGet (t ++ rest) i = t.getD i nulC := by
  simp only [bufGet]
  rw [List.getD_eq_getElem?_getD, List.getElem?_append_left h,
    ← List.getD_eq_getElem?_getD]

lemma bufGet_append_self (t : List Char) (c : Char) (rest : List Char) :
    bufGet (t ++ c :: rest) t.length = c := by
  simp only [bufGet]
  rw [List.getD_eq_getElem?_getD,
    List.getElem?_append_right (Nat.le_refl _), Nat.sub_self]
  simp

lemma writeOut_line_shape (b : Buf) (l r : List Char)
    (hlen : l.length ≤ bufCap - 2) :
    ∃ X, writeOut b (l ++ nlC :: r) = l ++ nlC :: X := by
  have h1 : bufCap - 1 - l.length = (bufCap - 2 - l.length) + 1 := by
    simp [bufCap] at hlen ⊢
    omega
  simp only [writeOut]
  rw [List.take_append_eq_append_take,
    List.take_of_length_le (show l.length ≤ bufCap - 1 by
      simp [bufCap] at hlen ⊢; omega),
    h1, List.take_succ_cons, List.append_assoc, List.cons_append]
  exact ⟨_, rfl⟩

lemma strtok_first_line (b : Buf) (l r : List Char) (hl : l ≠ [])
    (hchars : ∀ c ∈ l, ¬ (c = nlC ∨ c = nulC))
    (hlen : l.length ≤ bufCap - 2) :
    strtokNext (writeOut b (l ++ nlC :: r)) 0 =
      (some (0, l), setNul (writeOut b (l ++ nlC :: r)) l.length,
       l.length + 1) := by
  obtain ⟨X, hX⟩ := writeOut_line_shape b l r hlen
  rw [hX]
  have hstop : ∀ c, (nlC :: X).head? = some c →
      (fun c => decide ¬ (c = nlC ∨ c = nulC)) c = false := by
    intro c hc
    simp only [List.head?_cons, Option.some.injEq] at hc
    subst hc
    decide
  have hpass : ∀ c ∈ l, (fun c => decide ¬ (c = nlC ∨ c = nulC)) c = true := by
    intro c hc
    simpa using hchars c hc
  have e := strtokNext_eq_tok_nl (l ++ nlC :: X) 0 0 l.length ?hp1 ?hne ?hl ?hq
  · rw [e]
    rw [List.drop_zero, List.take_left, Nat.zero_add]
  case hp1 =>
    cases l with
    | nil => exact absurd rfl hl
    | cons c cs =>
      have hc : ¬ (c = nlC ∨ c = nulC) := hchars c (by simp)
      simp only [List.drop_zero, List.cons_append, List.takeWhile_cons]
      rw [if_neg (by simpa using fun he => hc (Or.inl he))]
      rfl
  case hne =>
    cases l with
    | nil => exact absurd rfl hl
    | cons c cs =>
      have hc : ¬ (c = nlC ∨ c = nulC) := hchars c (by simp)
      simp only [List.cons_append, bufGet, List.getD_cons_zero]
      exact fun he => hc (Or.inr he)
  case hl =>
    rw [List.drop_zero, takeWhile_append_stop _ l (nlC :: X) hpass hstop]
  case hq =>
    rw [Nat.zero_add, bufGet_append_self]
    intro he
    have : nlC ≠ nulC := by decide
    exact this he

/-- The device listing is dead after its first line: `get_drivesL` yields
the same catalog whatever follows the listing's first line (and whatever
the buffer initially held), because the next token is always taken from
the most recent mount-point query's output. -/
lemma get_drivesL_first_line_only (env : Env) (b b' : Buf)
    (priors : List DriveInfo) (l r r' : List Char) (hl : l ≠ [])
    (hchars : ∀ c ∈ l, ¬ (c = nlC ∨ c = nulC))
    (hlen : l.length ≤ bufCap - 2) :
    (get_drivesL env b priors 32 (l ++ nlC :: r)).1 =
      (get_drivesL env b' priors 32 (l ++ nlC :: r')).1 := by
  simp only [get_drivesL]
  rw [strtok_first_line b l r hl hchars hlen,
    strtok_first_line b' l r' hl hchars hlen]
  apply drivesLoop_congr
  intro pt hpt
  have hpt1 : pt.1 = 0 := by
    injection hpt with h2
    rw [← h2]
  rw [hpt1]
  refine ⟨l.length, Nat.zero_le _, ?_, ?_⟩
  · rw [bufGet_setNul]
    simp
  · intro i hi
    rw [bufGet_setNul, bufGet_setNul]
    by_cases hiq : i = l.length
    · simp [hiq]
    · rw [if_neg hiq, if_neg hiq]
      have hilt : i < l.length := by omega
      obtain ⟨X, hX⟩ := writeOut_line_shape b l r hlen
      obtain ⟨X', hX'⟩ := writeOut_line_shape b' l r' hlen
      rw [hX, hX', bufGet_append_left l _ i hilt,
        bufGet_append_left l _ i hilt]

/-- C9 amended: `exec_cmd`'s single static buffer is overwritten on every
call and both loops tokenize it across further `exec_cmd` calls, but the
two loops fail differently.  In `get_drives` the device listing is never
continued past its first line — the resumption point always lies inside
the most recent mount-point query output, so the catalog is independent of
everything after the listing's first line.  In `unmount_drive` the
iteration resumes at the old offset into the overwritten buffer: with a
long mount-point output it reads that query's text as the next "partition"
(`a/usb`), while with outputs too short to clobber the residue it still
reads the original listing and iterates correctly. -/
theorem c9_amended :
    (∀ (env : Env) (b b' : Buf) (priors : List DriveInfo) (l r r' : List Char),
       l ≠ [] → (∀ c ∈ l, ¬ (c = nlC ∨ c = nulC)) → l.length ≤ bufCap - 2 →
       (get_drivesL env b priors 32 (l ++ nlC :: r)).1 =
         (get_drivesL env b' priors 32 (l ++ nlC :: r')).1) ∧
    (unmount_drive envPowerOffBug [] ("/dev/sdb".toList) []).1.visited =
      ["/dev/sdb1".toList, "/dev/a/usb".toList] ∧
    (unmount_drive envShortOutputs [] ("/dev/sdb".toList) []).1.visited =
      ["/dev/sdb1".toList, "/dev/sdb2".toList] :=
  ⟨fun env b b' priors l r r' h1 h2 h3 =>
    get_drivesL_first_line_only env b b' priors l r r' h1 h2 h3,
   by decide, by decide⟩

/-- Witness for `c9_amended`: two listings sharing the first line
`/dev/sdb` but differing afterwards yield the same catalog. -/
theorem c9_amended_witness :
    ("/dev/sdb".toList ≠ ([] : List Char)) ∧
    (get_drivesL envTwoDisks [] [] 32
        ("/dev/sdb".toList ++ nlC :: "x y\n".toList)).1 =
      (get_drivesL envTwoDisks [] [] 32
        ("/dev/sdb".toList ++ nlC :: "zzzz\n".toList)).1 :=
  ⟨by decide,
   c9_amended.1 envTwoDisks [] [] [] ("/dev/sdb".toList) ("x y\n".toList)
     ("zzzz\n".toList) (by decide) (by decide) (by decide)⟩

end Ceject
